import Mathlib

/-!
Shallow embedding of the Go demo repository (slices.go, the maps demo, the
variables demo) and of the Go built-ins those demos exercise.

A Go slice value is a view (offset, length) into a backing array; the
capacity of a view is the backing array's length minus the offset, which is
exactly the invariant Go's `make` and the slice operator maintain.  Mutation
of the backing array is threaded explicitly: operations take the backing
buffer and return the updated buffer, so aliasing between a slice and its
sub-slices is the sharing of one buffer value.

A Go map with string keys and int values is an association list whose keys
are pairwise distinct (`keysNodup`); every map operation of the demo is
embedded below and shown to preserve that invariant where needed.
-/

set_option autoImplicit false

namespace GoDemo

universe u

variable {α : Type u}

/-- Header of a Go slice view into a backing array: start offset and length.
The capacity is determined by the backing array (see `scap`). -/
structure GoSlice where
  off : Nat
  len : Nat
deriving DecidableEq

/-- Capacity of the view `s` over backing buffer `buf`: Go's `cap`, the
number of array cells from the view's start to the end of the allocation. -/
def scap (buf : List α) (s : GoSlice) : Nat := buf.length - s.off

/-- Well-formedness of a view over a buffer: the viewed window lies inside
the allocation.  Every slice Go produces satisfies this. -/
def WF (buf : List α) (s : GoSlice) : Prop := s.off + s.len ≤ buf.length

/-- The elements a slice view denotes, in order: Go's `s[0], …, s[len-1]`. -/
def sElems (buf : List α) (s : GoSlice) : List α := (buf.drop s.off).take s.len

/-- Go's indexed read `s[i]` (slices.go lines 23-27): bounds-checked against
the length; out of range is a runtime panic, embedded as `none`. -/
def sIndexGet (buf : List α) (s : GoSlice) (i : Int) : Option α :=
  if 0 ≤ i ∧ i < (s.len : Int) then buf[s.off + i.toNat]? else none

/-- Go's indexed write `s[i] = v`: bounds-checked against the length; on
success returns the updated backing buffer (all aliases see the write), on
out-of-range it panics (`none`) and no mutation happens. -/
def sIndexSet (buf : List α) (s : GoSlice) (i : Int) (v : α) : Option (List α) :=
  if 0 ≤ i ∧ i < (s.len : Int) then some (buf.set (s.off + i.toNat) v) else none

/-- Overwrite the cells of `buf` starting at position `p` with `vs`,
keeping everything outside that window.  Helper for `goAppend`/`goCopy`. -/
def writeAt (buf : List α) (p : Nat) (vs : List α) : List α :=
  buf.take p ++ vs ++ buf.drop (p + vs.length)

/-- Go's `make([]T, n)` (slices.go line 19): a fresh backing array of `n`
zero values and a view of length `n`; capacity defaults to the length. -/
def goMake (z : α) (n : Nat) : List α × GoSlice := (List.replicate n z, ⟨0, n⟩)

/-- Go's `make([]T, n, c)` with int arguments: panics (`none`) when the
length is negative or the capacity is below the length, otherwise allocates
`c` zero-valued cells and returns a view of length `n` over them. -/
def goMakeCap (z : α) (n c : Int) : Option (List α × GoSlice) :=
  if 0 ≤ n ∧ n ≤ c then some (List.replicate c.toNat z, ⟨0, n.toNat⟩) else none

/-- Go's `append(s, vs...)` (slices.go lines 34-35): if the values fit in the
remaining capacity the backing array is written in place and the same
storage is returned with a longer view; otherwise a fresh backing array
holding the old elements followed by `vs` is allocated (capacity at least
the new length; the exact growth policy is implementation-defined and the
demo does not depend on it, so the model allocates exactly the new length). -/
def goAppend (buf : List α) (s : GoSlice) (vs : List α) : List α × GoSlice :=
  if s.len + vs.length ≤ scap buf s then
    (writeAt buf (s.off + s.len) vs, ⟨s.off, s.len + vs.length⟩)
  else
    (sElems buf s ++ vs, ⟨0, s.len + vs.length⟩)

/-- Apply `goAppend` to a (buffer, view) pair, as the demo threads it. -/
def appendVal (p : List α × GoSlice) (vs : List α) : List α × GoSlice :=
  goAppend p.1 p.2 vs

/-- Go's `copy(dst, src)` (slices.go line 41): element-wise transfer of
`min (len dst) (len src)` elements into dst's backing storage; returns the
updated destination buffer and the count copied.  Neither header changes. -/
def goCopy (dbuf : List α) (d : GoSlice) (sbuf : List α) (s : GoSlice) :
    List α × Nat :=
  (writeAt dbuf d.off ((sElems sbuf s).take (min d.len s.len)), min d.len s.len)

/-- Go's slice operator `s[low:high]` (slices.go lines 45-54): legal when
`0 ≤ low ≤ high ≤ cap s` (the Go bound is the capacity, not the length);
returns a view sharing the same backing storage, never copying.  Violating
the bound is a runtime panic, embedded as `none`. -/
def sSlice (buf : List α) (s : GoSlice) (low high : Int) : Option GoSlice :=
  if 0 ≤ low ∧ low ≤ high ∧ high ≤ (scap buf s : Int) then
    some ⟨s.off + low.toNat, (high - low).toNat⟩
  else none

/-- Go's `slices.Equal` (slices.go line 62): same length and equal elements
at every position, i.e. equality of the denoted element lists. -/
def sliceEqual [DecidableEq α] (b1 : List α) (s1 : GoSlice) (b2 : List α)
    (s2 : GoSlice) : Bool :=
  decide (sElems b1 s1 = sElems b2 s2)

/-- In-bounds indexed write used when threading the concrete demo states;
the demo theorems prove each such index is in range, so the fallback (which
models the panic leaving the buffer unchanged) is never taken. -/
def setOr (buf : List α) (s : GoSlice) (i : Int) (v : α) : List α :=
  (sIndexSet buf s i v).getD buf

/-- The value of a Go slice variable as relevant to nil-ness (slices.go
lines 12-13): whether it carries a backing array at all, plus length and
capacity.  `var s []string` yields no backing array; `make` always yields
one, even of length 0. -/
structure SliceVal where
  hasBacking : Bool
  len : Nat
  cap : Nat
deriving DecidableEq

/-- A declared-but-uninitialized slice: Go's zero value for a slice type. -/
def uninitSlice : SliceVal := ⟨false, 0, 0⟩

/-- Go's `s == nil` test on a slice: true exactly when there is no backing
array. -/
def sliceIsNil (s : SliceVal) : Bool := !s.hasBacking

/-- The slice value produced by `make([]T, n)`: backed, length and capacity
`n`. -/
def makeSliceVal (n : Nat) : SliceVal := ⟨true, n, n⟩

/-- Go map with string keys and int values, as an association list; the
demos only ever build lists with pairwise distinct keys (`keysNodup`). -/
abbrev GoMap := List (String × Int)

/-- Go's map assignment `m[k] = v`: overwrite the binding of `k` when
present, otherwise add the binding. -/
def mset : GoMap → String → Int → GoMap
  | [], k, v => [(k, v)]
  | p :: rest, k, v => if p.1 = k then (k, v) :: rest else p :: mset rest k v

/-- Binding of key `k` in `m`, if any. -/
def mlookup : GoMap → String → Option Int
  | [], _ => none
  | p :: rest, k => if p.1 = k then some p.2 else mlookup rest k

/-- Go's one-valued map read `m[k]` (part_000 lines 22-27): the stored value
when the key is present, the value type's zero value otherwise; never an
error. -/
def mget (m : GoMap) (k : String) : Int := (mlookup m k).getD 0

/-- Go's two-valued map read `v, ok := m[k]` (part_000 lines 43-44): the
stored value and `true` when the key is present, the zero value and `false`
otherwise. -/
def mgetOk (m : GoMap) (k : String) : Int × Bool :=
  ((mlookup m k).getD 0, (mlookup m k).isSome)

/-- Go's `delete(m, k)` (part_000 line 33): drop the binding of `k` if
present; silently a no-op otherwise. -/
def mdelete (m : GoMap) (k : String) : GoMap :=
  m.filter (fun p => p.1 != k)

/-- Go's `clear(m)` (part_000 line 37): remove every binding; the map stays
usable and empty. -/
def mclear (_ : GoMap) : GoMap := []

/-- Go's `len(m)` (part_000 line 30): number of bindings, which under
`keysNodup` is the number of distinct keys. -/
def msize (m : GoMap) : Nat := m.length

/-- Go's `maps.Equal(m1, m2)` (part_000 line 52): equal sizes and every
binding of `m1` present with the same value in `m2`. -/
def mapsEqual (m1 m2 : GoMap) : Bool :=
  (msize m1 == msize m2) && m1.all (fun p => mlookup m2 p.1 == some p.2)

/-- The unique-keys invariant every Go map satisfies. -/
def keysNodup (m : GoMap) : Prop := (m.map Prod.fst).Nodup

/-- Strict ordering on character lists, used to render maps the way Go's
fmt package does (fmt sorts map keys before printing). -/
def charsLt : List Char → List Char → Bool
  | [], [] => false
  | [], _ :: _ => true
  | _ :: _, [] => false
  | a :: as, b :: bs => if a < b then true else if b < a then false else charsLt as bs

/-- Key order used by fmt when printing a map. -/
def strLt (a b : String) : Bool := charsLt a.data b.data

/-- Insert a binding into a key-sorted list of bindings. -/
def insertPair (p : String × Int) : List (String × Int) → List (String × Int)
  | [] => [p]
  | q :: rest => if strLt p.1 q.1 then p :: q :: rest else q :: insertPair p rest

/-- Sort bindings by key, as fmt does before printing a map. -/
def sortPairs : List (String × Int) → List (String × Int)
  | [] => []
  | p :: rest => insertPair p (sortPairs rest)

/-- Go's `fmt.Println` rendering of a map: `map[k1:v1 k2:v2]` with the keys
in sorted order. -/
def mapStr (m : GoMap) : String :=
  "map[" ++ String.intercalate " "
    ((sortPairs m).map (fun p => p.1 ++ ":" ++ toString p.2)) ++ "]"

/-- Go's `fmt.Println` rendering of an int slice: `[v1 v2 …]`. -/
def intListStr (l : List Int) : String :=
  "[" ++ String.intercalate " " (l.map toString) ++ "]"

/-- Go's `fmt.Println` rendering of a two-level int slice. -/
def twoDStr (l : List (List Int)) : String :=
  "[" ++ String.intercalate " " (l.map intListStr) ++ "]"

/-- Demo state (slices.go line 19): `s = make([]string, 3)`. -/
def demo0 : List String × GoSlice := goMake "" 3

/-- Demo state after `s[0] = "a"; s[1] = "b"; s[2] = "c"` (lines 22-24). -/
def demoBufA : List String :=
  setOr (setOr (setOr demo0.1 demo0.2 0 "a") demo0.2 1 "b") demo0.2 2 "c"

/-- Demo state after `s = append(s, "d")` (line 34). -/
def demoApd1 : List String × GoSlice := goAppend demoBufA demo0.2 ["d"]

/-- Demo state after `s = append(s, "e", "f")` (line 35). -/
def demoApd2 : List String × GoSlice := goAppend demoApd1.1 demoApd1.2 ["e", "f"]

/-- Demo `copy(c, s)` into a fresh slice of the same length (lines 39-40). -/
def demoCpy : List String × Nat :=
  goCopy (goMake "" (demoApd2.2.len)).1 (goMake "" (demoApd2.2.len)).2
    demoApd2.1 demoApd2.2

/-- The inner slice of index `i` of the two-level demo structure
(slices.go lines 70-75): `make([]int, i+1)` then `twoD[i][j] = i + j`. -/
def buildInner (i : Nat) : List Int :=
  (List.range (i + 1)).map (fun j => (i : Int) + (j : Int))

/-- The two-level demo structure `twoD` (slices.go lines 68-76). -/
def twoD : List (List Int) := (List.range 3).map buildInner

/-- Map demo state after `m["k1"] = 7; m["k2"] = 13` (part_000 lines 15-16). -/
def demoM2 : GoMap := mset (mset [] "k1" 7) "k2" 13

/-- Map demo state after `delete(m, "k2")` (part_000 line 33). -/
def demoM1 : GoMap := mdelete demoM2 "k2"

/-- Map demo state after `clear(m)` (part_000 line 37). -/
def demoMc : GoMap := mclear demoM1

/-- The literal map `map[string]int{"foo": 1, "bar": 2}` (part_000 line 47). -/
def demoN : GoMap := mset (mset [] "foo" 1) "bar" 2

/-- The second identical literal map (part_000 line 51). -/
def demoN2 : GoMap := mset (mset [] "foo" 1) "bar" 2

/-- The sequence obtained by appending "a" and then "b" to an empty slice. -/
def seqAB : List String × GoSlice := appendVal (appendVal (goMake "" 0) ["a"]) ["b"]

/-- The sequence obtained by appending the same two values in the other
order. -/
def seqBA : List String × GoSlice := appendVal (appendVal (goMake "" 0) ["b"]) ["a"]

/-! Helper lemmas about the buffer primitives. -/

/-- Writing a window that fits inside the buffer keeps its length. -/
theorem length_writeAt (buf vs : List α) (p : Nat) (h : p + vs.length ≤ buf.length) :
    (writeAt buf p vs).length = buf.length := by
  simp [writeAt]
  omega

/-- Cell-level description of `writeAt`: cells in the window come from `vs`,
the others are untouched. -/
theorem getElem_writeAt (buf vs : List α) (p i : Nat) (h : p + vs.length ≤ buf.length) :
    (writeAt buf p vs)[i]? =
      if p ≤ i ∧ i < p + vs.length then vs[i - p]? else buf[i]? := by
  simp only [writeAt, List.getElem?_append, List.length_take, List.getElem?_take,
    List.getElem?_drop, List.length_append]
  split_ifs <;> first | rfl | omega | (congr 1; omega)

/-- A well-formed view denotes exactly `len` elements. -/
theorem sElems_length (buf : List α) (s : GoSlice) (h : WF buf s) :
    (sElems buf s).length = s.len := by
  unfold WF at h
  simp [sElems]
  omega

/-- Element `i` of a view is cell `off + i` of the backing buffer. -/
theorem sElems_getElem (buf : List α) (s : GoSlice) (i : Nat) :
    (sElems buf s)[i]? = if i < s.len then buf[s.off + i]? else none := by
  simp [sElems, List.getElem?_take, List.getElem?_drop]

/-- A full-width view denotes the whole buffer. -/
theorem sElems_full (l : List α) : sElems l ⟨0, l.length⟩ = l := by
  simp [sElems]

/-- Append returns a view denoting the old elements followed by the new
values, whether or not it reallocates. -/
theorem sElems_goAppend (buf : List α) (s : GoSlice) (vs : List α) (h : WF buf s) :
    sElems (goAppend buf s vs).1 (goAppend buf s vs).2 = sElems buf s ++ vs := by
  unfold WF at h
  by_cases hfit : s.len + vs.length ≤ scap buf s
  · unfold scap at hfit
    simp only [goAppend, scap, if_pos hfit]
    apply List.ext_getElem?
    intro i
    have hl : (sElems buf s).length = s.len := sElems_length buf s h
    have hw : ∀ j : Nat, (writeAt buf (s.off + s.len) vs)[j]? =
        if s.off + s.len ≤ j ∧ j < s.off + s.len + vs.length then
          vs[j - (s.off + s.len)]? else buf[j]? :=
      fun j => getElem_writeAt buf vs (s.off + s.len) j (by omega)
    simp only [sElems_getElem, hw, List.getElem?_append, hl]
    split_ifs <;>
      first
        | rfl
        | omega
        | (congr 1; omega)
        | (symm; apply List.getElem?_eq_none; omega)
  · simp only [goAppend, if_neg hfit]
    have h2 : s.len + vs.length = (sElems buf s ++ vs).length := by
      rw [List.length_append, sElems_length buf s h]
    rw [h2]
    exact sElems_full _

/-- The view returned by append always has the extended length. -/
theorem goAppend_len (buf : List α) (s : GoSlice) (vs : List α) :
    (goAppend buf s vs).2.len = s.len + vs.length := by
  unfold goAppend
  split_ifs <;> rfl

/-- Full behaviour of `goCopy`: count, unchanged destination length, and the
transferred cells. -/
theorem goCopy_spec (dbuf : List α) (d : GoSlice) (sbuf : List α) (s : GoSlice)
    (hd : WF dbuf d) (hs : WF sbuf s) :
    (goCopy dbuf d sbuf s).2 = min d.len s.len ∧
    ((goCopy dbuf d sbuf s).1).length = dbuf.length ∧
    (∀ i : Int, 0 ≤ i → i < ((min d.len s.len : Nat) : Int) →
      sIndexGet (goCopy dbuf d sbuf s).1 d i = sIndexGet sbuf s i) := by
  unfold WF at hd hs
  have hsl : (sElems sbuf s).length = s.len := sElems_length sbuf s hs
  have htl : ((sElems sbuf s).take (min d.len s.len)).length = min d.len s.len := by
    rw [List.length_take, hsl]
    omega
  have hbound : d.off + ((sElems sbuf s).take (min d.len s.len)).length ≤ dbuf.length := by
    rw [htl]
    omega
  refine ⟨rfl, ?_, ?_⟩
  · exact length_writeAt dbuf _ d.off hbound
  · intro i hi0 hin
    have hin2 : i.toNat < min d.len s.len := by omega
    simp only [goCopy, sIndexGet]
    rw [if_pos (by constructor <;> omega), if_pos (by constructor <;> omega)]
    rw [getElem_writeAt dbuf _ d.off (d.off + i.toNat) hbound, htl]
    rw [if_pos (by constructor <;> omega)]
    have hsub : d.off + i.toNat - d.off = i.toNat := by omega
    rw [hsub, List.getElem?_take, if_pos hin2, sElems_getElem, if_pos (by omega)]

/-! Helper lemmas about the map primitives. -/

/-- Looking up after `mset`: the written key reads back the written value,
every other key is untouched. -/
theorem mlookup_mset (m : GoMap) (k k2 : String) (v : Int) :
    mlookup (mset m k v) k2 = if k = k2 then some v else mlookup m k2 := by
  induction m with
  | nil => simp only [mset, mlookup]
  | cons p rest ih =>
    by_cases hp : p.1 = k
    · subst hp
      simp only [mset, if_pos rfl, mlookup]
      split_ifs <;> simp_all
    · simp only [mset, if_neg hp, mlookup, ih]
      split_ifs <;> simp_all

/-- Keys after `mset` are the old keys plus the written key. -/
theorem mem_keys_mset (m : GoMap) (k a : String) (v : Int) :
    a ∈ (mset m k v).map Prod.fst ↔ a ∈ m.map Prod.fst ∨ a = k := by
  induction m with
  | nil => simp [mset]
  | cons p rest ih =>
    simp only [mset]
    split_ifs with hp
    · subst hp
      simp only [List.map_cons, List.mem_cons]
      tauto
    · simp only [List.map_cons, List.mem_cons, ih]
      tauto

/-- Go map insertion keeps keys pairwise distinct. -/
theorem keysNodup_mset (m : GoMap) (k : String) (v : Int) :
    keysNodup m → keysNodup (mset m k v) := by
  unfold keysNodup
  induction m with
  | nil =>
    intro _
    simp [mset]
  | cons p rest ih =>
    intro h
    simp only [List.map_cons, List.nodup_cons] at h
    simp only [mset]
    split_ifs with hp
    · subst hp
      simp only [List.map_cons, List.nodup_cons]
      exact h
    · simp only [List.map_cons, List.nodup_cons]
      refine ⟨?_, ih h.2⟩
      rw [mem_keys_mset]
      push_neg
      exact ⟨h.1, hp⟩

/-- Under distinct keys, a binding in the list is found by lookup. -/
theorem mlookup_mem_nodup (m : GoMap) (p : String × Int) :
    keysNodup m → p ∈ m → mlookup m p.1 = some p.2 := by
  induction m with
  | nil =>
    intro _ hm
    cases hm
  | cons q rest ih =>
    intro h hm
    unfold keysNodup at h
    simp only [List.map_cons, List.nodup_cons] at h
    rcases List.mem_cons.mp hm with rfl | hmem
    · simp [mlookup]
    · simp only [mlookup]
      split_ifs with hq
      · exact absurd (hq ▸ List.mem_map_of_mem Prod.fst hmem) h.1
      · exact ih h.2 hmem

/-- A successful lookup comes from a binding in the list. -/
theorem mem_of_mlookup (m : GoMap) (k : String) (v : Int) :
    mlookup m k = some v → (k, v) ∈ m := by
  induction m with
  | nil =>
    intro h
    simp [mlookup] at h
  | cons q rest ih =>
    intro h
    simp only [mlookup] at h
    split_ifs at h with hq
    · injection h with h2
      subst h2
      subst hq
      simp
    · exact List.mem_cons_of_mem q (ih h)

/-- A key is among the keys exactly when lookup succeeds. -/
theorem mem_keys_iff (m : GoMap) (k : String) :
    k ∈ m.map Prod.fst ↔ mlookup m k ≠ none := by
  induction m with
  | nil => simp [mlookup]
  | cons q rest ih =>
    simp only [List.map_cons, List.mem_cons, mlookup, ih]
    split_ifs with hq <;> simp_all [eq_comm]

/-- With distinct keys, the key Finset has as many elements as the list. -/
theorem keys_card (m : GoMap) (h : keysNodup m) :
    (m.map Prod.fst).toFinset.card = m.length := by
  rw [List.toFinset_card_of_nodup h, List.length_map]

/-- Go's `maps.Equal` agrees with pointwise equality of lookups, for maps
with pairwise distinct keys. -/
theorem mapsEqual_iff (m1 m2 : GoMap) (h1 : keysNodup m1) (h2 : keysNodup m2) :
    mapsEqual m1 m2 = true ↔ ∀ k, mlookup m1 k = mlookup m2 k := by
  unfold mapsEqual msize
  rw [Bool.and_eq_true, beq_iff_eq, List.all_eq_true]
  constructor
  · rintro ⟨hlen, hall⟩ k
    have hall2 : ∀ p ∈ m1, mlookup m2 p.1 = some p.2 := by
      intro p hp
      have hb := hall p hp
      rwa [beq_iff_eq] at hb
    cases hm : mlookup m1 k with
    | some v =>
      have hmem := mem_of_mlookup m1 k v hm
      exact (hall2 (k, v) hmem).symm
    | none =>
      have hsub : (m1.map Prod.fst).toFinset ⊆ (m2.map Prod.fst).toFinset := by
        intro a ha
        rw [List.mem_toFinset] at ha ⊢
        rcases List.mem_map.mp ha with ⟨p, hp, rfl⟩
        rw [mem_keys_iff, hall2 p hp]
        simp
      have hcard : (m2.map Prod.fst).toFinset.card ≤ (m1.map Prod.fst).toFinset.card := by
        rw [keys_card m1 h1, keys_card m2 h2, hlen]
      have hse : (m1.map Prod.fst).toFinset = (m2.map Prod.fst).toFinset :=
        Finset.eq_of_subset_of_card_le hsub hcard
      have hk1 : k ∉ m1.map Prod.fst := by
        rw [mem_keys_iff]
        simp [hm]
      have hk2 : k ∉ m2.map Prod.fst := by
        intro hc
        apply hk1
        rw [← List.mem_toFinset, hse, List.mem_toFinset]
        exact hc
      rw [mem_keys_iff] at hk2
      push_neg at hk2
      rw [hk2]
  · intro hk
    have hset : (m1.map Prod.fst).toFinset = (m2.map Prod.fst).toFinset := by
      ext a
      rw [List.mem_toFinset, List.mem_toFinset, mem_keys_iff, mem_keys_iff, hk a]
    constructor
    · rw [← keys_card m1 h1, ← keys_card m2 h2, hset]
    · intro p hp
      rw [beq_iff_eq, ← hk p.1]
      exact mlookup_mem_nodup m1 p h1 hp

/-- Go's `maps.Equal` is symmetric on maps with distinct keys. -/
theorem mapsEqual_comm (m1 m2 : GoMap) (h1 : keysNodup m1) (h2 : keysNodup m2) :
    mapsEqual m1 m2 = mapsEqual m2 m1 := by
  rw [Bool.eq_iff_iff, mapsEqual_iff m1 m2 h1 h2, mapsEqual_iff m2 m1 h2 h1]
  constructor <;> intro h k <;> exact (h k).symm

/-- Go's `maps.Equal` is reflexive on maps with distinct keys. -/
theorem mapsEqual_refl (m : GoMap) (h : keysNodup m) : mapsEqual m m = true :=
  (mapsEqual_iff m m h h).mpr (fun _ => rfl)

/-- Inserting two distinct keys in either order yields equal maps: map
equality is insensitive to insertion order. -/
theorem mapsEqual_mset_comm (m : GoMap) (h : keysNodup m) (k1 k2 : String)
    (v1 v2 : Int) (hk : k1 ≠ k2) :
    mapsEqual (mset (mset m k1 v1) k2 v2) (mset (mset m k2 v2) k1 v1) = true := by
  rw [mapsEqual_iff _ _ (keysNodup_mset _ k2 v2 (keysNodup_mset _ k1 v1 h))
    (keysNodup_mset _ k1 v1 (keysNodup_mset _ k2 v2 h))]
  intro k
  rw [mlookup_mset, mlookup_mset, mlookup_mset, mlookup_mset]
  split_ifs <;> simp_all

/-! Claim theorems. -/

/-- C1: for every sequence and bounds `0 ≤ low ≤ high ≤ length`, the
sub-range view has length `high - low`, its element `i` is the original's
element `low + i`, and writing through the view at `j - low` followed by
reading index `j` from the original (no reallocating append in between)
yields the written value: the view aliases the original's backing storage
rather than copying it. -/
theorem c1_subrange_aliasing (buf : List α) (s : GoSlice) (low high : Int)
    (h : WF buf s) (h0 : 0 ≤ low) (hlh : low ≤ high) (hhl : high ≤ (s.len : Int)) :
    ∃ v : GoSlice, sSlice buf s low high = some v ∧
      (v.len : Int) = high - low ∧
      (∀ i : Int, 0 ≤ i → i < (v.len : Int) →
        sIndexGet buf v i = sIndexGet buf s (low + i)) ∧
      (∀ j : Int, low ≤ j → j < high → ∀ x : α,
        ∃ buf2 : List α, sIndexSet buf v (j - low) x = some buf2 ∧
          sIndexGet buf2 s j = some x) := by
  unfold WF at h
  have hcap : high ≤ ((scap buf s : Nat) : Int) := by
    unfold scap
    omega
  have hv : sSlice buf s low high = some ⟨s.off + low.toNat, (high - low).toNat⟩ := by
    simp only [sSlice]
    rw [if_pos ⟨h0, hlh, hcap⟩]
  refine ⟨⟨s.off + low.toNat, (high - low).toNat⟩, hv, ?_, ?_, ?_⟩
  · show (((high - low).toNat : Nat) : Int) = high - low
    omega
  · intro i hi0 hiv
    have hiv2 : i < ((high - low).toNat : Int) := hiv
    simp only [sIndexGet]
    rw [if_pos (by constructor <;> omega), if_pos (by constructor <;> omega)]
    congr 1
    omega
  · intro j hj1 hj2 x
    refine ⟨buf.set (s.off + low.toNat + (j - low).toNat) x, ?_, ?_⟩
    · simp only [sIndexSet]
      rw [if_pos (by constructor <;> omega)]
    · simp only [sIndexGet]
      rw [if_pos (by constructor <;> omega)]
      have hidx : s.off + low.toNat + (j - low).toNat = s.off + j.toNat := by omega
      rw [hidx]
      exact List.getElem?_set_self (by omega)

/-- Witness for C1 at the demo state: the buffer `["a",…,"f"]` with its full
view, sub-ranged with `low = 2`, `high = 5` as in `s[2:5]`. -/
theorem c1_subrange_witness :
    ∃ v : GoSlice, sSlice ["a", "b", "c", "d", "e", "f"] (⟨0, 6⟩ : GoSlice) 2 5 = some v ∧
      (v.len : Int) = 5 - 2 ∧
      (∀ i : Int, 0 ≤ i → i < (v.len : Int) →
        sIndexGet ["a", "b", "c", "d", "e", "f"] v i =
          sIndexGet ["a", "b", "c", "d", "e", "f"] (⟨0, 6⟩ : GoSlice) (2 + i)) ∧
      (∀ j : Int, 2 ≤ j → j < 5 → ∀ x : String,
        ∃ buf2 : List String,
          sIndexSet ["a", "b", "c", "d", "e", "f"] v (j - 2) x = some buf2 ∧
          sIndexGet buf2 (⟨0, 6⟩ : GoSlice) j = some x) :=
  c1_subrange_aliasing ["a", "b", "c", "d", "e", "f"] ⟨0, 6⟩ 2 5
    (by unfold WF; decide) (by decide) (by decide) (by decide)

/-- C2: append returns a sequence whose elements are the original `L`
elements as an initial segment followed by the appended values in order, of
length `L +` (number appended); in the demo, appending "d" and then
"e","f" to `["a","b","c"]` yields `["a","b","c","d","e","f"]`. -/
theorem c2_append (buf : List α) (s : GoSlice) (vs : List α) (h : WF buf s) :
    sElems (goAppend buf s vs).1 (goAppend buf s vs).2 = sElems buf s ++ vs ∧
    (goAppend buf s vs).2.len = s.len + vs.length ∧
    sElems demoApd1.1 demoApd1.2 = ["a", "b", "c", "d"] ∧
    sElems demoApd2.1 demoApd2.2 = ["a", "b", "c", "d", "e", "f"] :=
  ⟨sElems_goAppend buf s vs h, goAppend_len buf s vs, by decide, by decide⟩

/-- Witness for C2: appending "d" to the concrete buffer `["a","b","c"]`. -/
theorem c2_append_witness :
    sElems (goAppend ["a", "b", "c"] (⟨0, 3⟩ : GoSlice) ["d"]).1
        (goAppend ["a", "b", "c"] (⟨0, 3⟩ : GoSlice) ["d"]).2 =
      sElems ["a", "b", "c"] (⟨0, 3⟩ : GoSlice) ++ ["d"] ∧
    (goAppend ["a", "b", "c"] (⟨0, 3⟩ : GoSlice) ["d"]).2.len =
      (⟨0, 3⟩ : GoSlice).len + (["d"] : List String).length ∧
    sElems demoApd1.1 demoApd1.2 = ["a", "b", "c", "d"] ∧
    sElems demoApd2.1 demoApd2.2 = ["a", "b", "c", "d", "e", "f"] :=
  c2_append ["a", "b", "c"] ⟨0, 3⟩ ["d"] (by unfold WF; decide)

/-- C3: the two-valued map lookup returns the zero value paired with `false`
for an absent key and the stored value paired with `true` for a present key;
absent-key lookup is not an error. -/
theorem c3_lookup_presence (m : GoMap) (k : String) :
    (mlookup m k = none → mgetOk m k = (0, false)) ∧
    (∀ v : Int, mlookup m k = some v → mgetOk m k = (v, true)) := by
  constructor
  · intro h
    simp [mgetOk, h]
  · intro v h
    simp [mgetOk, h]

/-- Witness for C3 at the demo map and the absent key "k3". -/
theorem c3_lookup_witness :
    (mlookup demoM2 "k3" = none → mgetOk demoM2 "k3" = (0, false)) ∧
    (∀ v : Int, mlookup demoM2 "k3" = some v → mgetOk demoM2 "k3" = (v, true)) :=
  c3_lookup_presence demoM2 "k3"

/-- C4: the concrete map scenario of the demo: after inserting k1 ↦ 7 and
k2 ↦ 13 the map prints as `map[k1:7 k2:13]`, `get(k1)` is 7, `get(k3)` is
`(0, false)`, the size is 2; after deleting k2 it prints as `map[k1:7]` with
the binding k1 ↦ 7 unchanged; after clear it prints as `map[]`, has size 0,
and `get(k2)` is `(0, false)`. -/
theorem c4_map_scenario :
    mapStr demoM2 = "map[k1:7 k2:13]" ∧
    mget demoM2 "k1" = 7 ∧
    mgetOk demoM2 "k3" = (0, false) ∧
    msize demoM2 = 2 ∧
    mapStr demoM1 = "map[k1:7]" ∧
    mlookup demoM1 "k1" = some 7 ∧
    mapStr demoMc = "map[]" ∧
    msize demoMc = 0 ∧
    mgetOk demoMc "k2" = (0, false) := by decide

/-- C5: a declared-but-uninitialized sequence is nil and has length 0, and
this nil state is distinct from an explicitly created empty sequence, which
also has length 0 but is not nil. -/
theorem c5_nil_vs_empty :
    sliceIsNil uninitSlice = true ∧
    uninitSlice.len = 0 ∧
    sliceIsNil (makeSliceVal 0) = false ∧
    (makeSliceVal 0).len = 0 ∧
    uninitSlice ≠ makeSliceVal 0 := by decide

/-- C6: copy transfers exactly `min (len dst) (len src)` elements
element-wise, returns that count, and leaves the destination's length
unchanged; in the demo, copying the 6-element sequence into a fresh
sequence of the same length makes the destination equal to the source. -/
theorem c6_copy (dbuf : List α) (d : GoSlice) (sbuf : List α) (s : GoSlice)
    (hd : WF dbuf d) (hs : WF sbuf s) :
    (goCopy dbuf d sbuf s).2 = min d.len s.len ∧
    ((goCopy dbuf d sbuf s).1).length = dbuf.length ∧
    (∀ i : Int, 0 ≤ i → i < ((min d.len s.len : Nat) : Int) →
      sIndexGet (goCopy dbuf d sbuf s).1 d i = sIndexGet sbuf s i) ∧
    demoCpy.1 = ["a", "b", "c", "d", "e", "f"] ∧
    demoCpy.2 = 6 ∧
    sliceEqual demoCpy.1 ⟨0, 6⟩ demoApd2.1 demoApd2.2 = true := by
  rcases goCopy_spec dbuf d sbuf s hd hs with ⟨hc1, hc2, hc3⟩
  exact ⟨hc1, hc2, hc3, by decide, by decide, by decide⟩

/-- Witness for C6: copying a 2-element source into a 3-element
destination. -/
theorem c6_copy_witness :
    (goCopy ["", "", ""] (⟨0, 3⟩ : GoSlice) ["x", "y"] (⟨0, 2⟩ : GoSlice)).2 =
      min (⟨0, 3⟩ : GoSlice).len (⟨0, 2⟩ : GoSlice).len ∧
    ((goCopy ["", "", ""] (⟨0, 3⟩ : GoSlice) ["x", "y"] (⟨0, 2⟩ : GoSlice)).1).length =
      (["", "", ""] : List String).length ∧
    (∀ i : Int, 0 ≤ i →
      i < ((min (⟨0, 3⟩ : GoSlice).len (⟨0, 2⟩ : GoSlice).len : Nat) : Int) →
      sIndexGet (goCopy ["", "", ""] (⟨0, 3⟩ : GoSlice) ["x", "y"] (⟨0, 2⟩ : GoSlice)).1
          (⟨0, 3⟩ : GoSlice) i =
        sIndexGet ["x", "y"] (⟨0, 2⟩ : GoSlice) i) ∧
    demoCpy.1 = ["a", "b", "c", "d", "e", "f"] ∧
    demoCpy.2 = 6 ∧
    sliceEqual demoCpy.1 ⟨0, 6⟩ demoApd2.1 demoApd2.2 = true :=
  c6_copy ["", "", ""] ⟨0, 3⟩ ["x", "y"] ⟨0, 2⟩ (by unfold WF; decide) (by unfold WF; decide)

/-- C7: allocation returns a sequence of exactly the requested length, all
elements the zero value, with capacity defaulting to the length; it fails
(rather than clamping) when the capacity is below the length or either
argument is negative; `make([]string, 3)` yields `["","",""]` with length 3
and capacity 3. -/
theorem c7_allocate (z : α) (n c : Int) (m : Nat) :
    (goMakeCap z n c = none ↔ n < 0 ∨ c < n) ∧
    (0 ≤ n → n ≤ c →
      goMakeCap z n c = some (List.replicate c.toNat z, ⟨0, n.toNat⟩)) ∧
    goMakeCap z (m : Int) (m : Int) = some (goMake z m) ∧
    (goMake z m).2.len = m ∧
    scap (goMake z m).1 (goMake z m).2 = m ∧
    (∀ i : Nat, i < m → sIndexGet (goMake z m).1 (goMake z m).2 (i : Int) = some z) ∧
    goMake ("" : String) 3 = (["", "", ""], ⟨0, 3⟩) ∧
    scap (goMake ("" : String) 3).1 (goMake ("" : String) 3).2 = 3 := by
  refine ⟨?_, ?_, ?_, rfl, ?_, ?_, by decide, by decide⟩
  · unfold goMakeCap
    split_ifs with hc
    · constructor
      · intro h
        cases h
      · intro h
        omega
    · constructor
      · intro _
        omega
      · intro _
        rfl
  · intro hn hc2
    unfold goMakeCap
    rw [if_pos ⟨hn, hc2⟩]
  · unfold goMakeCap goMake
    rw [if_pos ⟨by omega, le_refl _⟩]
    simp
  · simp [goMake, scap]
  · intro i him
    simp only [goMake, sIndexGet]
    rw [if_pos (by constructor <;> omega)]
    rw [List.getElem?_replicate, if_pos (by omega)]

/-- Witness for C7 at concrete arguments: length 2, capacity 5, and the
demo's `make([]string, 3)`. -/
theorem c7_allocate_witness :
    (goMakeCap ("" : String) 2 5 = none ↔ (2 : Int) < 0 ∨ (5 : Int) < 2) ∧
    ((0 : Int) ≤ 2 → (2 : Int) ≤ 5 →
      goMakeCap ("" : String) 2 5 =
        some (List.replicate (5 : Int).toNat "", ⟨0, (2 : Int).toNat⟩)) ∧
    goMakeCap ("" : String) ((3 : Nat) : Int) ((3 : Nat) : Int) = some (goMake "" 3) ∧
    (goMake ("" : String) 3).2.len = 3 ∧
    scap (goMake ("" : String) 3).1 (goMake ("" : String) 3).2 = 3 ∧
    (∀ i : Nat, i < 3 →
      sIndexGet (goMake ("" : String) 3).1 (goMake ("" : String) 3).2 (i : Int) = some "") ∧
    goMake ("" : String) 3 = (["", "", ""], ⟨0, 3⟩) ∧
    scap (goMake ("" : String) 3).1 (goMake ("" : String) 3).2 = 3 :=
  c7_allocate "" 2 5 3

/-- C8 counterexample: the demo's view `s[:5]` of the six-cell buffer has
length 5, yet the sub-range `[2:6]` of it succeeds because 6 does not exceed
its capacity — sub-ranging is not rejected whenever `high` exceeds the
length, refuting the claim's length bound for the slice operator. -/
theorem c8_counterexample :
    sSlice demoApd2.1 demoApd2.2 0 5 = some ⟨0, 5⟩ ∧
    sSlice demoApd2.1 (⟨0, 5⟩ : GoSlice) 2 6 = some ⟨2, 4⟩ ∧
    ¬ ((6 : Int) ≤ (((⟨0, 5⟩ : GoSlice).len : Nat) : Int)) := by decide

/-- C8 (amended): indexed reads and writes are bounds-checked against the
length and fail, with no mutation, exactly when the index is outside
`[0, length)`; sub-ranging fails exactly when `0 ≤ low ≤ high ≤ capacity` is
violated (the upper bound is the capacity, not the length); within bounds the
error branch is unreachable; and every index and sub-range operation of the
demo satisfies its precondition. -/
theorem c8_bounds (buf : List α) (s : GoSlice) (i : Int) (v : α) (low high : Int)
    (h : WF buf s) :
    (sIndexGet buf s i = none ↔ i < 0 ∨ (s.len : Int) ≤ i) ∧
    (sIndexSet buf s i v = none ↔ i < 0 ∨ (s.len : Int) ≤ i) ∧
    (0 ≤ i → i < (s.len : Int) → ∃ x, sIndexGet buf s i = some x) ∧
    (sSlice buf s low high = none ↔
      ¬ (0 ≤ low ∧ low ≤ high ∧ high ≤ ((scap buf s : Nat) : Int))) ∧
    sIndexSet demo0.1 demo0.2 0 "a" ≠ none ∧
    sIndexSet (setOr demo0.1 demo0.2 0 "a") demo0.2 1 "b" ≠ none ∧
    sIndexSet (setOr (setOr demo0.1 demo0.2 0 "a") demo0.2 1 "b") demo0.2 2 "c" ≠ none ∧
    sIndexGet demoBufA demo0.2 2 = some "c" ∧
    sSlice demoApd2.1 demoApd2.2 2 5 ≠ none ∧
    sSlice demoApd2.1 demoApd2.2 0 5 ≠ none ∧
    sSlice demoApd2.1 demoApd2.2 2 6 ≠ none := by
  unfold WF at h
  refine ⟨?_, ?_, ?_, ?_, by decide, by decide, by decide, by decide,
    by decide, by decide, by decide⟩
  · unfold sIndexGet
    split_ifs with hc
    · rw [List.getElem?_eq_none_iff]
      omega
    · simp only [eq_self_iff_true, true_iff]
      omega
  · unfold sIndexSet
    split_ifs with hc
    · simp only [reduceCtorEq, false_iff]
      omega
    · simp only [eq_self_iff_true, true_iff]
      omega
  · intro hi0 hilen
    have hne : buf[s.off + i.toNat]? ≠ none := by
      intro hcon
      rw [List.getElem?_eq_none_iff] at hcon
      omega
    rcases Option.ne_none_iff_exists.mp hne with ⟨x, hx⟩
    refine ⟨x, ?_⟩
    unfold sIndexGet
    rw [if_pos ⟨hi0, hilen⟩, ← hx]
  · unfold sSlice
    split_ifs with hc
    · simp only [reduceCtorEq, false_iff]
      push_neg
      exact hc
    · simp only [eq_self_iff_true, true_iff]
      exact hc

/-- Witness for C8 at the demo state, with out-of-range index 7 and
out-of-range sub-range bound 9. -/
theorem c8_bounds_witness :
    (sIndexGet demoApd2.1 demoApd2.2 (7 : Int) = none ↔
      (7 : Int) < 0 ∨ (demoApd2.2.len : Int) ≤ 7) ∧
    (sIndexSet demoApd2.1 demoApd2.2 (7 : Int) "z" = none ↔
      (7 : Int) < 0 ∨ (demoApd2.2.len : Int) ≤ 7) ∧
    ((0 : Int) ≤ 7 → (7 : Int) < (demoApd2.2.len : Int) →
      ∃ x, sIndexGet demoApd2.1 demoApd2.2 (7 : Int) = some x) ∧
    (sSlice demoApd2.1 demoApd2.2 (2 : Int) (9 : Int) = none ↔
      ¬ ((0 : Int) ≤ 2 ∧ (2 : Int) ≤ 9 ∧
        (9 : Int) ≤ ((scap demoApd2.1 demoApd2.2 : Nat) : Int))) ∧
    sIndexSet demo0.1 demo0.2 0 "a" ≠ none ∧
    sIndexSet (setOr demo0.1 demo0.2 0 "a") demo0.2 1 "b" ≠ none ∧
    sIndexSet (setOr (setOr demo0.1 demo0.2 0 "a") demo0.2 1 "b") demo0.2 2 "c" ≠ none ∧
    sIndexGet demoBufA demo0.2 2 = some "c" ∧
    sSlice demoApd2.1 demoApd2.2 2 5 ≠ none ∧
    sSlice demoApd2.1 demoApd2.2 0 5 ≠ none ∧
    sSlice demoApd2.1 demoApd2.2 2 6 ≠ none :=
  c8_bounds demoApd2.1 demoApd2.2 7 "z" 2 9 (by unfold WF; decide)

/-- C9 counterexample: appending the same two values in the two possible
orders yields sequences with equal lengths and the same elements up to
permutation, yet `slices.Equal` distinguishes them — sequence equality is
not insensitive to insertion order. -/
theorem c9_counterexample :
    sliceEqual seqAB.1 seqAB.2 seqBA.1 seqBA.2 = false ∧
    (sElems seqAB.1 seqAB.2).length = (sElems seqBA.1 seqBA.2).length ∧
    (sElems seqAB.1 seqAB.2).Perm (sElems seqBA.1 seqBA.2) := by decide

/-- C9 (amended): equality is reflexive and symmetric for both container
types; map equality holds iff the two maps agree on every lookup (identical
key sets with equal values) and is insensitive to insertion order; sequence
equality holds iff the element sequences coincide (same length, equal
corresponding elements), which is order-sensitive; the two literal sequences
and the two literal maps of the demo compare equal. -/
theorem c9_equal_properties [DecidableEq α] (m1 m2 : GoMap) (h1 : keysNodup m1)
    (h2 : keysNodup m2) (b1 b2 : List α) (s1 s2 : GoSlice) (k1 k2 : String)
    (v1 v2 : Int) (hk : k1 ≠ k2) :
    mapsEqual m1 m1 = true ∧
    mapsEqual m1 m2 = mapsEqual m2 m1 ∧
    (mapsEqual m1 m2 = true ↔ ∀ k, mlookup m1 k = mlookup m2 k) ∧
    mapsEqual (mset (mset m1 k1 v1) k2 v2) (mset (mset m1 k2 v2) k1 v1) = true ∧
    sliceEqual b1 s1 b1 s1 = true ∧
    sliceEqual b1 s1 b2 s2 = sliceEqual b2 s2 b1 s1 ∧
    (sliceEqual b1 s1 b2 s2 = true ↔ sElems b1 s1 = sElems b2 s2) ∧
    sliceEqual ["g", "h", "i"] ⟨0, 3⟩ ["g", "h", "i"] ⟨0, 3⟩ = true ∧
    mapsEqual demoN demoN2 = true ∧
    mapsEqual demoN [("bar", 2), ("foo", 1)] = true := by
  refine ⟨mapsEqual_refl m1 h1, mapsEqual_comm m1 m2 h1 h2, mapsEqual_iff m1 m2 h1 h2,
    mapsEqual_mset_comm m1 h1 k1 k2 v1 v2 hk, ?_, ?_, ?_, by decide, by decide, by decide⟩
  · simp [sliceEqual]
  · unfold sliceEqual
    exact decide_eq_decide.mpr eq_comm
  · simp [sliceEqual]

/-- Witness for C9 at the demo maps and concrete two-element sequences. -/
theorem c9_equal_witness :
    mapsEqual demoM2 demoM2 = true ∧
    mapsEqual demoM2 demoN = mapsEqual demoN demoM2 ∧
    (mapsEqual demoM2 demoN = true ↔ ∀ k, mlookup demoM2 k = mlookup demoN k) ∧
    mapsEqual (mset (mset demoM2 "x" 1) "y" 2) (mset (mset demoM2 "y" 2) "x" 1) = true ∧
    sliceEqual ["g", "h"] (⟨0, 2⟩ : GoSlice) ["g", "h"] (⟨0, 2⟩ : GoSlice) = true ∧
    sliceEqual ["g", "h"] (⟨0, 2⟩ : GoSlice) ["h", "g"] (⟨0, 2⟩ : GoSlice) =
      sliceEqual ["h", "g"] (⟨0, 2⟩ : GoSlice) ["g", "h"] (⟨0, 2⟩ : GoSlice) ∧
    (sliceEqual ["g", "h"] (⟨0, 2⟩ : GoSlice) ["h", "g"] (⟨0, 2⟩ : GoSlice) = true ↔
      sElems ["g", "h"] (⟨0, 2⟩ : GoSlice) = sElems ["h", "g"] (⟨0, 2⟩ : GoSlice)) ∧
    sliceEqual ["g", "h", "i"] ⟨0, 3⟩ ["g", "h", "i"] ⟨0, 3⟩ = true ∧
    mapsEqual demoN demoN2 = true ∧
    mapsEqual demoN [("bar", 2), ("foo", 1)] = true :=
  c9_equal_properties demoM2 demoN (by unfold keysNodup; decide) (by unfold keysNodup; decide)
    ["g", "h"] ["h", "g"] ⟨0, 2⟩ ⟨0, 2⟩ "x" "y" 1 2 (by decide)

/-- C10: the two-level demo structure has outer length 3, inner sequence `i`
has length `i + 1`, the element at `(i, j)` is `i + j`, and it prints as
`[[0] [1 2] [2 3 4]]`: inner sequences of a two-level structure may have
differing lengths. -/
theorem c10_twoD :
    twoD.length = 3 ∧
    (∀ i : Nat, i < 3 → (twoD.getD i []).length = i + 1 ∧
      ∀ j : Nat, j < i + 1 → (twoD.getD i []).getD j 0 = (i : Int) + (j : Int)) ∧
    twoD = [[0], [1, 2], [2, 3, 4]] ∧
    twoDStr twoD = "[[0] [1 2] [2 3 4]]" := by decide

end GoDemo
